import Mathlib

/-!
Verification development for the playlist/song reconciliation and export engine
of pyWMP (src/pyWMP.py, class pyWMPsonglist and friends).

Modelling conventions, fixed once for the whole file:

* Paths use a single separator character, here `/` (the source uses
  `os.path.sep` uniformly; the spec assumes "a single path-separator
  convention").
* Strings are modelled through their character lists; the helper functions
  below reproduce the semantics of the Python string operations actually used
  by the source (`split(sep)`, `join`, `startswith`, `replace`, `title`,
  `isdigit`, slicing) on ASCII data.
* A Song is a handle with a `sourceURL` and an ordered attribute list;
  `getItemInfo` returns the stored value or the empty string, as the COM
  interface does.
* Console output (`print`) is not modelled: the spec declares console
  output/logging out of scope.
* `eval` of a textual filter expression is the Python interpreter, an external
  collaborator; it is modelled as an oracle parameter `peval` mapping the
  substituted expression string to a value or a raised error.
* Python `dict.keys()` iteration during deletion follows Python 2 semantics
  (`keys()` returns a snapshot list), matching the code base (which also uses
  `iteritems` and trailing-comma prints).
* The filesystem is a list of file paths; directories exist implicitly when
  some file lies beneath them.  `os.access(p, F_OK)`/`os.path.exists` test
  either a file or an implicit directory; `os.remove` deletes a file and
  raises `OSError` on a directory.
* Python set iteration order is unspecified; functions iterating over a set
  (`common_path`) take the iteration sequence as an explicit duplicate-free
  list, and theorems quantify over such sequences.
-/

namespace PyWMP

/-- Python exception classes that the modelled code can raise. -/
inductive PyErr where
  | nameError
  | attributeError
  | typeError
  | osError
  | valueError
  | indexError
deriving DecidableEq

/-! ## Character-level string primitives (Python semantics) -/

/-- The single path separator character (`os.path.sep`). -/
def sepChar : Char := '/'

/-- The path separator as a string. -/
def sep : String := "/"

/-- Helper for `splitSep`: accumulate the current field (reversed). -/
def splitSepAux : List Char → List Char → List (List Char)
  | [], acc => [acc.reverse]
  | c :: cs, acc =>
    if c = sepChar then acc.reverse :: splitSepAux cs []
    else splitSepAux cs (c :: acc)

/-- Python `s.split(os.path.sep)`: the result is always nonempty. -/
def splitSep (s : String) : List String :=
  (splitSepAux s.toList []).map String.mk

/-- Join character lists with the separator (Python `os.path.sep.join`). -/
def sepJoinChars : List (List Char) → List Char
  | [] => []
  | [x] => x
  | x :: xs => x ++ sepChar :: sepJoinChars xs

/-- Python `os.path.sep.join(parts)`. -/
def sepJoin (parts : List String) : String :=
  String.mk (sepJoinChars (parts.map String.toList))

/-- Python `f.startswith(c)`. -/
def strStarts (f c : String) : Bool :=
  List.isPrefixOf c.toList f.toList

/-- Python `s.split(os.path.sep)[-1]` (the base file name); `split` never
returns an empty list, so the default is unreachable. -/
def lastSeg (s : String) : String :=
  (splitSep s).getLastD ""

/-- Python `l[-2]`: defined when the list has at least two elements,
otherwise the source raises `IndexError`. -/
def penult (l : List String) : Option String :=
  l.reverse.get? 1

/-- Python `s[n:]` (character based). -/
def strDrop (s : String) (n : Nat) : String :=
  String.mk (s.toList.drop n)

/-- Python `len(s)` (character based). -/
def strLen (s : String) : Nat :=
  s.toList.length

/-- Fuel-driven core of Python `s.replace(pat, rep)` (left-to-right,
non-overlapping); the fuel is the length of the subject, which each step
strictly consumes. -/
def replaceFuel (pat rep : List Char) : Nat → List Char → List Char
  | 0, s => s
  | _ + 1, [] => []
  | n + 1, c :: cs =>
    if List.isPrefixOf pat (c :: cs) then
      rep ++ replaceFuel pat rep n (List.drop pat.length (c :: cs))
    else
      c :: replaceFuel pat rep n cs

/-- Python `s.replace(pat, rep)`; the source only ever replaces nonempty
patterns, for which this model is exact. -/
def strReplace (s pat rep : String) : String :=
  if pat.toList = [] then s
  else String.mk (replaceFuel pat.toList rep.toList s.toList.length s.toList)

/-- Python `s.isdigit()` on ASCII data: nonempty and all digits. -/
def pyIsDigit (s : String) : Bool :=
  !s.toList.isEmpty && s.toList.all Char.isDigit

/-- Core of Python `s.title()` on ASCII data: a letter is uppercased when the
previous character is not a letter, lowercased otherwise. -/
def pyTitleGo : Bool → List Char → List Char
  | _, [] => []
  | prevAlpha, c :: cs =>
    if c.isAlpha then
      (if prevAlpha then c.toLower else c.toUpper) :: pyTitleGo true cs
    else
      c :: pyTitleGo false cs

/-- Python `s.title()` on ASCII data. -/
def pyTitle (s : String) : String :=
  String.mk (pyTitleGo false s.toList)

/-- Python `s.replace('_', ' ')`. -/
def underscoresToSpaces (s : String) : String :=
  String.mk (s.toList.map (fun c => if c = '_' then ' ' else c))

/-- Python `s.replace(':', '')`. -/
def stripColons (s : String) : String :=
  String.mk (s.toList.filter (fun c => c ≠ ':'))

/-- Python `s.split('.')[0]` (everything before the first dot). -/
def beforeFirstDot (s : String) : String :=
  String.mk (s.toList.takeWhile (fun c => c ≠ '.'))

/-- A file name with its extension stripped (everything before the *last*
dot, the name unchanged when it has no dot).  Modelled from the spec's words
"the filename with its extension stripped"; used only to compare the spec's
description against the source. -/
def stripExtension (s : String) : String :=
  if s.toList.contains '.' then
    String.mk (((s.toList.reverse.dropWhile (fun c => c ≠ '.')).drop 1).reverse)
  else s

/-- Decimal digits to a natural number. -/
def digitsToNat (cs : List Char) : Nat :=
  cs.foldl (fun acc c => 10 * acc + (c.toNat - 48)) 0

/-- Python `int(float(s))` for plain decimal numerals `digits[.digits]`,
computed exactly (no binary-float rounding); other shapes raise `ValueError`
in the source and yield `none` here. -/
def parseDecimal (s : String) : Option Nat :=
  let cs := s.toList
  let ip := cs.takeWhile (fun c => c ≠ '.')
  let rest := cs.dropWhile (fun c => c ≠ '.')
  if ip ≠ [] ∧ ip.all Char.isDigit ∧
      (rest = [] ∨ (rest.head? = some '.' ∧ (rest.drop 1).all Char.isDigit)) then
    some (digitsToNat ip)
  else none

/-- Keep the first occurrence of each string (models building a Python set
from a list, recording one admissible iteration order). -/
def firstDedupGo : List String → List String → List String
  | _, [] => []
  | seen, x :: xs =>
    if x ∈ seen then firstDedupGo seen xs
    else x :: firstDedupGo (x :: seen) xs

/-- Deduplicate a list of strings keeping first occurrences. -/
def firstDedup (l : List String) : List String :=
  firstDedupGo [] l

/-! ## The data model -/

/-- One media item handle: a stable source path plus an enumerable ordered
list of named string attributes (`attributeCount` is its length,
`getAttributeName i` its `i`-th name). -/
structure Song where
  sourceURL : String
  attrs : List (String × String)
deriving DecidableEq

/-- Python `song.getItemInfo(k)`: the stored value, or the empty string when
the attribute is absent. -/
def getItemInfo (s : Song) (k : String) : String :=
  ((s.attrs.find? (fun kv => kv.fst = k)).map Prod.snd).getD ""

/-- The names a song exposes, `[song.getAttributeName(i) for i in
range(song.attributeCount)]`. -/
def attrNames (s : Song) : List String :=
  s.attrs.map Prod.fst

/-! ## `filter_by_attribute` and `filter_recent` -/

/-- A value produced by Python `eval` of a filter expression. -/
inductive PyVal where
  | bool (b : Bool)
  | int (n : Int)
  | str (s : String)
deriving DecidableEq

/-- Python `v == keep` for a boolean `keep`: `True == True`, `1 == True`,
`0 == False`; any other value compares unequal to both booleans. -/
def pyEqBool : PyVal → Bool → Bool
  | .bool b, keep => b == keep
  | .int n, keep => (n == 1 && keep) || (n == 0 && !keep)
  | .str _, _ => false

/-- The `test` argument of `filter_by_attribute`: a textual expression or a
predicate function. -/
inductive Test where
  | str (e : String)
  | fn (f : String → Bool)

/-- The expression actually passed to `eval`: the token `attribute` replaced
by the value, quoted unless the value is all digits
(`test.replace('attribute', a)` after the quoting step). -/
def substExpr (e a : String) : String :=
  let a2 := if pyIsDigit a then a else "\"" ++ a ++ "\""
  strReplace e "attribute" a2

/-- The loop of `filter_by_attribute` (pyWMP.py lines 337-373), with the
accumulated `new_pl` kept reversed.  Behaviour mirrored from the source:

* a song with `attributeCount == 0` hits `break`, ending the loop normally;
* a song without the attribute is skipped;
* for a string test, the substituted expression is evaluated: a raised
  `NameError` is caught, printed and hits `break` (normal return of the
  partial list); any other raised error propagates;
* for a function test, `type(test) == function` raises `NameError` (the name
  `function` is undefined in Python), and the `except NameError` handler then
  evaluates `test.replace(...)` on the function object, raising
  `AttributeError`, which propagates to the caller. -/
def fbaGo (peval : String → Except PyErr PyVal) (attrKey : String)
    (test : Test) (keep : Bool) : List Song → List Song → Except PyErr (List Song)
  | [], acc => .ok acc.reverse
  | s :: rest, acc =>
    if s.attrs = [] then .ok acc.reverse
    else if attrKey ∈ attrNames s then
      let a := getItemInfo s attrKey
      match test with
      | .str e =>
        match peval (substExpr e a) with
        | .ok v =>
          if pyEqBool v keep then fbaGo peval attrKey test keep rest (s :: acc)
          else fbaGo peval attrKey test keep rest acc
        | .error .nameError => .ok acc.reverse
        | .error err => .error err
      | .fn _ => .error .attributeError
    else fbaGo peval attrKey test keep rest acc

/-- `pyWMPsonglist.filter_by_attribute(attribute, test, label, keep)`
(pyWMP.py lines 289-380); the label only names the result and is omitted. -/
def filter_by_attribute (peval : String → Except PyErr PyVal)
    (songs : List Song) (attrKey : String) (test : Test) (keep : Bool) :
    Except PyErr (List Song) :=
  fbaGo peval attrKey test keep songs []

/-- `pyWMPsonglist.filter_recent(days, keep)` (pyWMP.py lines 389-393): a
call to `filter_by_attribute` on `AcquisitionTimeYearMonthDay` with a lambda
predicate.  The recency comparison against `dt.now()` is external real time,
so the predicate is a parameter. -/
def filter_recent (peval : String → Except PyErr PyVal)
    (isRecent : String → Bool) (songs : List Song) (keep : Bool) :
    Except PyErr (List Song) :=
  filter_by_attribute peval songs "AcquisitionTimeYearMonthDay" (.fn isRecent) keep

/-! ## `filter_unique` -/

/-- The base names of all files below `target` in the filesystem `fs`
(the keys of the `file_list` dictionary built from `os.walk(target)` in
pyWMP.py lines 402-411). -/
def walkNames (fs : List String) (target : String) : List String :=
  (fs.filter (fun f => strStarts f (target ++ sep))).map lastSeg

/-- The loop of `filter_unique` (pyWMP.py lines 413-429): `useNames` is the
truthiness of `file_list` (given and nonempty); `pathset` only grows when a
song is appended, exactly as in the source. -/
def fuGo (names : List String) (useNames reverse : Bool) :
    List Song → List String → List Song → List Song
  | [], _, acc => acc.reverse
  | s :: rest, pathset, acc =>
    if s.sourceURL ∈ pathset then fuGo names useNames reverse rest pathset acc
    else if useNames then
      if lastSeg s.sourceURL ∈ names then
        if reverse then fuGo names useNames reverse rest (s.sourceURL :: pathset) (s :: acc)
        else fuGo names useNames reverse rest pathset acc
      else
        if reverse then fuGo names useNames reverse rest pathset acc
        else fuGo names useNames reverse rest (s.sourceURL :: pathset) (s :: acc)
    else fuGo names useNames reverse rest (s.sourceURL :: pathset) (s :: acc)

/-- `pyWMPsonglist.filter_unique(target_path, reverse)` (pyWMP.py lines
395-433).  `target = ""` models `target_path=None` (both are falsy); an empty
`file_list` dictionary is also falsy, hence `useNames` requires a nonempty
name list. -/
def filter_unique (fs : List String) (songs : List Song)
    (target : String) (reverse : Bool) : List Song :=
  let names := if target ≠ "" then walkNames fs target else []
  fuGo names (target ≠ "" && !names.isEmpty) reverse songs [] []

/-- The songs the spec says `filter_unique(None)` keeps: those whose
`sourceURL` differs from every earlier song's (first occurrence of each
`sourceURL`, in input order). -/
def firstOccurrences (songs : List Song) : List Song :=
  (songs.enum.filter
    (fun p => p.snd.sourceURL ∉ (songs.take p.fst).map Song.sourceURL)).map Prod.snd

/-! ## `get_attributes` -/

/-- Increment the count of `v` in a value histogram (first occurrence wins
the slot, as in a Python dict). -/
def bumpVal : List (String × Nat) → String → List (String × Nat)
  | [], v => [(v, 1)]
  | (w, c) :: rest, v =>
    if w = v then (w, c + 1) :: rest else (w, c) :: bumpVal rest v

/-- Increment `attr[k][v]` in the attribute histogram. -/
def bumpAttr : List (String × List (String × Nat)) → String → String →
    List (String × List (String × Nat))
  | [], k, v => [(k, [(v, 1)])]
  | (k0, m) :: rest, k, v =>
    if k0 = k then (k0, bumpVal m v) :: rest else (k0, m) :: bumpAttr rest k v

/-- The histogram-building pass of `get_attributes` (pyWMP.py lines 257-268):
for every song and every attribute index, bump `attr[name][value]`. -/
def buildHist (songs : List Song) : List (String × List (String × Nat)) :=
  songs.foldl
    (fun h s => (attrNames s).foldl (fun h k => bumpAttr h k (getItemInfo s k)) h)
    []

/-- `pyWMPsonglist.get_attributes(min_songs)` (pyWMP.py lines 254-287): build
the histogram, then drop one-value attributes, drop values below the
threshold, and drop attributes left with fewer than two values. -/
def get_attributes (songs : List Song) (min_songs : Nat) :
    List (String × List (String × Nat)) :=
  (buildHist songs).filterMap (fun kv =>
    if kv.snd.length = 1 then none
    else
      let vals := kv.snd.filter (fun vc => !(vc.snd < min_songs))
      if vals.length < 2 then none else some (kv.fst, vals))

/-! ## `__playlistEntry_M3U__` -/

/-- `pyWMPsonglist.__playlistEntry_M3U__(iwmp_media, url)` (pyWMP.py lines
435-467).  Raised exceptions are modelled: a non-numeral nonempty `Duration`
raises `ValueError` in `float(...)`, and a `sourceURL` without a separator
raises `IndexError` in `split(os.path.sep)[-2]` when the `Author` fallback is
taken. -/
def playlistEntry_M3U (s : Song) (url : String) : Except PyErr String := do
  let dur ←
    if strLen (getItemInfo s "Duration") > 0 then
      match parseDecimal (getItemInfo s "Duration") with
      | some n => Except.ok (toString n ++ ",")
      | none => Except.error .valueError
    else Except.ok "120,"
  let artist ←
    if strLen (getItemInfo s "Author") > 0 then
      Except.ok (getItemInfo s "Author" ++ " - ")
    else
      match penult (splitSep s.sourceURL) with
      | some d => Except.ok (pyTitle (underscoresToSpaces d) ++ " - ")
      | none => Except.error .indexError
  let title :=
    if strLen (getItemInfo s "Title") > 0 then getItemInfo s "Title"
    else pyTitle (underscoresToSpaces (beforeFirstDot (lastSeg s.sourceURL)))
  let theUrl := if url ≠ "" then url else s.sourceURL
  Except.ok ("#EXTINF:" ++ dur ++ artist ++ title ++ "\n" ++ theUrl ++ "\n")

/-- Modelled from the spec (section 4.4), word for word, for comparison with
the source: duration attribute rounded down if present and nonempty else 120;
author attribute if nonempty, else the penultimate path segment with
underscores replaced and title-cased; title attribute if nonempty, else the
last path segment *with its extension stripped*, underscores replaced,
title-cased; the override URL when supplied, else `sourceURL`. -/
def specEntryLiteral (s : Song) (url : String) : String :=
  let dur :=
    if strLen (getItemInfo s "Duration") > 0 then
      toString ((parseDecimal (getItemInfo s "Duration")).getD 0)
    else "120"
  let artist :=
    if strLen (getItemInfo s "Author") > 0 then getItemInfo s "Author"
    else pyTitle (underscoresToSpaces ((penult (splitSep s.sourceURL)).getD ""))
  let title :=
    if strLen (getItemInfo s "Title") > 0 then getItemInfo s "Title"
    else pyTitle (underscoresToSpaces (stripExtension (lastSeg s.sourceURL)))
  let theUrl := if url ≠ "" then url else s.sourceURL
  "#EXTINF:" ++ dur ++ "," ++ artist ++ " - " ++ title ++ "\n" ++ theUrl ++ "\n"

/-- The spec's entry description amended at the single point the source
diverges: the title fallback truncates the file name at its *first* dot
(`tmp.split('.')[0]`) rather than stripping the extension. -/
def specEntryAmended (s : Song) (url : String) : String :=
  let dur :=
    if strLen (getItemInfo s "Duration") > 0 then
      toString ((parseDecimal (getItemInfo s "Duration")).getD 0)
    else "120"
  let artist :=
    if strLen (getItemInfo s "Author") > 0 then getItemInfo s "Author"
    else pyTitle (underscoresToSpaces ((penult (splitSep s.sourceURL)).getD ""))
  let title :=
    if strLen (getItemInfo s "Title") > 0 then getItemInfo s "Title"
    else pyTitle (underscoresToSpaces (beforeFirstDot (lastSeg s.sourceURL)))
  let theUrl := if url ≠ "" then url else s.sourceURL
  "#EXTINF:" ++ dur ++ "," ++ artist ++ " - " ++ title ++ "\n" ++ theUrl ++ "\n"

/-! ## `export_playlist` -/

/-- The M3U header line written first. -/
def m3uHeader : String := "#EXTM3U\n"

/-- The per-song loop of `export_playlist` (pyWMP.py lines 495-509).
`writeOk` is the external I/O oracle deciding whether `f.write` of one entry
string succeeds; a failed write appends the entry to the error log and bumps
the counter.  The entry string itself is built *outside* the `try`, so a
raised error there propagates.  The source-to-destination rebase is applied
when both directories are given (nonempty). -/
def eplGo (writeOk : String → Bool) (source_dir dest_dir : String) :
    List Song → String → List String → Nat →
    Except PyErr (String × List String × Nat)
  | [], content, log, cnt => .ok (content, log, cnt)
  | s :: rest, content, log, cnt =>
    match playlistEntry_M3U s "" with
    | .error e => .error e
    | .ok str0 =>
      let str := if source_dir ≠ "" && dest_dir ≠ "" then
          strReplace str0 source_dir dest_dir
        else str0
      if writeOk str then eplGo writeOk source_dir dest_dir rest (content ++ str) log cnt
      else eplGo writeOk source_dir dest_dir rest content (log ++ [str]) (cnt + 1)

/-- `pyWMPsonglist.export_playlist(playlist_path, source_dir, dest_dir)`
(pyWMP.py lines 469-516), at the level of produced contents: the result is
the playlist text, the error-log lines of this run (the log file is removed
at the start of the call, so it holds exactly these), and the returned error
count. -/
def export_playlist (writeOk : String → Bool) (songs : List Song)
    (source_dir dest_dir : String) : Except PyErr (String × List String × Nat) :=
  eplGo writeOk source_dir dest_dir songs m3uHeader [] 0

/-- The entry string of a song, as a total function (used only to state
theorems about `export_playlist`; meaningful when serialization succeeds). -/
def entryOf (s : Song) : String :=
  match playlistEntry_M3U s "" with
  | .ok e => e
  | .error _ => ""

/-! ## `common_path` -/

/-- The loop state of `common_path`: the accepted prefix segments and the
memo of candidate strings already counted. -/
structure CPState where
  pfx : List String
  checked : List String
deriving DecidableEq

/-- One iteration of the `common_path` loop (pyWMP.py lines 527-547) for the
file `f`, counting over the whole collection `filelist`:

* drop the file name, skip the file when it has fewer remaining segments
  than the accepted prefix, skip candidates already counted;
* otherwise count how many paths *string-start* with the candidate and
  accept its last segment on a strict majority;
* `parts[len(prefixlist)]` raises `IndexError` when the accepted candidate
  was shorter than the current depth (a genuinely reachable crash). -/
def cpStep (filelist : List String) (st : CPState) (f : String) :
    Except PyErr CPState :=
  let parts := (splitSep f).dropLast
  if parts.length < st.pfx.length then .ok st
  else
    let check := sepJoin (parts.take (1 + st.pfx.length))
    if check ∈ st.checked then .ok st
    else
      let cnt := (filelist.filter (fun f2 => strStarts f2 check)).length
      if 2 * cnt > filelist.length then
        match parts.get? st.pfx.length with
        | some seg => .ok ⟨st.pfx ++ [seg], check :: st.checked⟩
        | none => .error .indexError
      else .ok ⟨st.pfx, check :: st.checked⟩

/-- `pyWMPsonglist.common_path(filelist)` (pyWMP.py lines 518-549).  The
argument is the iteration sequence of the Python set (duplicate-free;
iteration order is unspecified, so theorems quantify over it). -/
def common_path (filelist : List String) : Except PyErr String := do
  let st ← filelist.foldlM (cpStep filelist) ⟨[], []⟩
  return sepJoin st.pfx

/-- The first path segment of a path. -/
def firstSeg (f : String) : String :=
  (splitSep f).headD ""

/-- Strictly more than half of the members share `g`'s first path segment
(the claim's "path segment shared by a strict majority at the first
depth"). -/
def firstSegMajority (l : List String) (g : String) : Prop :=
  2 * (l.filter (fun f => firstSeg f = firstSeg g)).length > l.length

instance (l : List String) (g : String) : Decidable (firstSegMajority l g) := by
  unfold firstSegMajority; infer_instance

/-! ## The filesystem model and `export_songs` / `remove_songs` -/

/-- `os.access(p, os.F_OK)` / `os.path.exists(p)`: `p` is a file of `fs` or
an implicit directory (some file lies strictly below it). -/
def accessF (fs : List String) (p : String) : Bool :=
  p ∈ fs || fs.any (fun f => strStarts f (p ++ sep))

/-- Keep the first song carrying each `sourceURL` (the `songs` accumulator of
the playlist-writing loop in `export_songs`, whose membership test compares
`sourceURL`s). -/
def dedupSongs : List String → List Song → List Song
  | _, [] => []
  | seen, s :: rest =>
    if s.sourceURL ∈ seen then dedupSongs seen rest
    else s :: dedupSongs (s.sourceURL :: seen) rest

/-- The destination-relative path of a song (pyWMP.py lines 592-596 and
657-661, identical in both functions): strip the `source_dir` prefix plus one
separator when the URL string-starts with it, else the full path with colons
removed. -/
def relPath (source_dir : String) (s : Song) : String :=
  if strStarts s.sourceURL source_dir then strDrop s.sourceURL (strLen source_dir + 1)
  else stripColons s.sourceURL

/-- One copy-loop iteration of `export_songs` (pyWMP.py lines 587-611): skip
a missing source file; skip when the computed destination file already
exists (the "duplicate" case); otherwise create the directories (implicit
here) and copy the file into the destination directory under its base
name. -/
def copyStep (source_dir dest_dir : String) (fs : List String) (s : Song) :
    List String :=
  if !accessF fs s.sourceURL then fs
  else
    let path := relPath source_dir s
    if accessF fs (dest_dir ++ sep ++ path) then fs
    else
      let dirp := sepJoin (dest_dir :: (splitSep path).dropLast)
      fs ++ [dirp ++ sep ++ lastSeg s.sourceURL]

/-- The playlist-writing loop of `export_songs` (pyWMP.py lines 613-627):
entries are generated for the `sourceURL`-deduplicated original list; the
entry construction itself is outside the `try`, so its errors propagate,
while write failures are caught and only printed.  File contents are not
part of the filesystem model, so only the raised errors remain. -/
def writeEntries : List Song → Except PyErr Unit
  | [] => .ok ()
  | s :: rest => do
    let _ ← playlistEntry_M3U s ""
    writeEntries rest

/-- `pyWMPsonglist.export_songs(playlist_path, dest_dir, source_dir)`
(pyWMP.py lines 551-629) acting on the filesystem `fs`; `name` is the song
list's name and `cwd` models `os.getcwd()`.  Returns the resulting
filesystem. -/
def export_songs (songs : List Song) (name playlist_path dest_dir source_dir cwd : String)
    (fs : List String) : Except PyErr (List String) := do
  let sd ←
    if source_dir = "" then common_path (firstDedup (songs.map Song.sourceURL))
    else Except.ok source_dir
  let dd :=
    if dest_dir = "" then
      if playlist_path ≠ "" then sepJoin ((splitSep playlist_path).dropLast)
      else cwd ++ sep ++ "SongExport"
    else dest_dir
  let plp := (if playlist_path = "" then dd ++ sep ++ name else playlist_path) ++ ".m3u"
  let fs1 := if plp ∈ fs then fs else fs ++ [plp]
  let pl := filter_unique fs1 songs dd false
  let fs2 := pl.foldl (copyStep sd dd) fs1
  let _ ← writeEntries (dedupSongs [] songs)
  return fs2

/-- One removal-loop iteration of `remove_songs` (pyWMP.py lines 656-670):
the relative path is computed exactly as in `export_songs`, then the file
name is stripped (the same snippet export uses to create directories) and
`os.remove` is called on the *resulting directory path*; a missing path is
skipped, a directory raises `OSError`. -/
def removeStep (dest_dir source_dir : String) (fs : List String) (s : Song) :
    Except PyErr (List String) :=
  let path := relPath source_dir s
  let dirp := sepJoin (dest_dir :: (splitSep path).dropLast)
  if !accessF fs dirp then .ok fs
  else if dirp ∈ fs then .ok (fs.erase dirp)
  else .error .osError

/-- `pyWMPsonglist.remove_songs(playlist_path, dest_dir, source_dir)`
(pyWMP.py lines 631-671) acting on the filesystem `fs`.  A missing or
nonexistent `dest_dir` raises `TypeError`; the playlist file is deleted when
present; then the removal loop runs over
`filter_unique(dest_dir, reverse=True)`. -/
def remove_songs (songs : List Song) (name playlist_path dest_dir source_dir : String)
    (fs : List String) : Except PyErr (List String) := do
  let sd ←
    if source_dir = "" then common_path (firstDedup (songs.map Song.sourceURL))
    else Except.ok source_dir
  if dest_dir = "" then Except.error .typeError
  else if !accessF fs dest_dir then Except.error .typeError
  else do
    let plp := (if playlist_path = "" then dest_dir ++ sep ++ name else playlist_path) ++ ".m3u"
    let fs1 ←
      if plp ∈ fs then Except.ok (fs.erase plp)
      else if accessF fs plp then Except.error .osError
      else Except.ok fs
    let pl := filter_unique fs1 songs dest_dir true
    pl.foldlM (removeStep dest_dir sd) fs1

/-! ## Helper lemmas about `filter_by_attribute` -/

/-- Does the evaluated expression come out as the boolean `keep`?  (The kept
condition of the loop, for evaluations that return a boolean.) -/
def evalKeep (peval : String → Except PyErr PyVal) (attrKey e : String)
    (keep : Bool) (s : Song) : Bool :=
  match peval (substExpr e (getItemInfo s attrKey)) with
  | .ok (.bool b) => b == keep
  | _ => false

theorem fbaGo_append (peval : String → Except PyErr PyVal) (attrKey e : String)
    (keep : Bool) (xs rest acc : List Song)
    (h1 : ∀ s ∈ xs, s.attrs ≠ [])
    (h2 : ∀ s ∈ xs, attrKey ∈ attrNames s →
      ∃ v, peval (substExpr e (getItemInfo s attrKey)) = .ok v) :
    ∃ acc', (∀ t ∈ acc', t ∈ xs ∨ t ∈ acc) ∧
      fbaGo peval attrKey (.str e) keep (xs ++ rest) acc =
        fbaGo peval attrKey (.str e) keep rest acc' ∧
      fbaGo peval attrKey (.str e) keep xs acc = .ok acc'.reverse := by
  induction xs generalizing acc with
  | nil => exact ⟨acc, fun t ht => Or.inr ht, rfl, rfl⟩
  | cons s xs ih =>
    have hs : s.attrs ≠ [] := h1 s (by simp)
    have h1' : ∀ t ∈ xs, t.attrs ≠ [] := fun t ht => h1 t (by simp [ht])
    have h2' : ∀ t ∈ xs, attrKey ∈ attrNames t →
        ∃ v, peval (substExpr e (getItemInfo t attrKey)) = .ok v :=
      fun t ht => h2 t (by simp [ht])
    by_cases hmem : attrKey ∈ attrNames s
    · obtain ⟨v, hv⟩ := h2 s (by simp) hmem
      by_cases hk : pyEqBool v keep = true
      · obtain ⟨acc', hsub, heq1, heq2⟩ := ih (s :: acc) h1' h2'
        refine ⟨acc', ?_, ?_, ?_⟩
        · intro t ht
          rcases hsub t ht with h | h
          · exact Or.inl (by simp [h])
          · rcases List.mem_cons.mp h with h | h
            · exact Or.inl (by simp [h])
            · exact Or.inr h
        · simpa [fbaGo, hs, hmem, hv, hk] using heq1
        · simpa [fbaGo, hs, hmem, hv, hk] using heq2
      · obtain ⟨acc', hsub, heq1, heq2⟩ := ih acc h1' h2'
        refine ⟨acc', ?_, ?_, ?_⟩
        · intro t ht
          rcases hsub t ht with h | h
          · exact Or.inl (by simp [h])
          · exact Or.inr h
        · simpa [fbaGo, hs, hmem, hv, hk] using heq1
        · simpa [fbaGo, hs, hmem, hv, hk] using heq2
    · obtain ⟨acc', hsub, heq1, heq2⟩ := ih acc h1' h2'
      refine ⟨acc', ?_, ?_, ?_⟩
      · intro t ht
        rcases hsub t ht with h | h
        · exact Or.inl (by simp [h])
        · exact Or.inr h
      · simpa [fbaGo, hs, hmem] using heq1
      · simpa [fbaGo, hs, hmem] using heq2

theorem fbaGo_filter (peval : String → Except PyErr PyVal) (attrKey e : String)
    (keep : Bool) (xs acc : List Song)
    (h1 : ∀ s ∈ xs, s.attrs ≠ [])
    (h2 : ∀ s ∈ xs, attrKey ∈ attrNames s →
      ∃ b, peval (substExpr e (getItemInfo s attrKey)) = .ok (.bool b)) :
    fbaGo peval attrKey (.str e) keep xs acc =
      .ok (acc.reverse ++ xs.filter
        (fun s => decide (attrKey ∈ attrNames s) && evalKeep peval attrKey e keep s)) := by
  induction xs generalizing acc with
  | nil => simp [fbaGo]
  | cons s xs ih =>
    have hs : s.attrs ≠ [] := h1 s (by simp)
    have h1' : ∀ t ∈ xs, t.attrs ≠ [] := fun t ht => h1 t (by simp [ht])
    have h2' : ∀ t ∈ xs, attrKey ∈ attrNames t →
        ∃ b, peval (substExpr e (getItemInfo t attrKey)) = .ok (.bool b) :=
      fun t ht => h2 t (by simp [ht])
    by_cases hmem : attrKey ∈ attrNames s
    · obtain ⟨b, hb⟩ := h2 s (by simp) hmem
      have hek : evalKeep peval attrKey e keep s = (b == keep) := by
        simp [evalKeep, hb]
      by_cases hbk : b = keep
      · have hpy : pyEqBool (.bool b) keep = true := by simp [pyEqBool, hbk]
        rw [show (s :: xs).filter
              (fun s => decide (attrKey ∈ attrNames s) && evalKeep peval attrKey e keep s) =
            s :: xs.filter
              (fun s => decide (attrKey ∈ attrNames s) && evalKeep peval attrKey e keep s) by
          simp [List.filter_cons, hmem, hek, hbk]]
        rw [show fbaGo peval attrKey (.str e) keep (s :: xs) acc =
            fbaGo peval attrKey (.str e) keep xs (s :: acc) by
          simp [fbaGo, hs, hmem, hb, hpy]]
        rw [ih (s :: acc) h1' h2']
        simp
      · have hpy : pyEqBool (.bool b) keep = false := by simp [pyEqBool, hbk]
        rw [show (s :: xs).filter
              (fun s => decide (attrKey ∈ attrNames s) && evalKeep peval attrKey e keep s) =
            xs.filter
              (fun s => decide (attrKey ∈ attrNames s) && evalKeep peval attrKey e keep s) by
          simp [List.filter_cons, hek, hbk]]
        rw [show fbaGo peval attrKey (.str e) keep (s :: xs) acc =
            fbaGo peval attrKey (.str e) keep xs acc by
          simp [fbaGo, hs, hmem, hb, hpy]]
        exact ih acc h1' h2'
    · rw [show (s :: xs).filter
            (fun s => decide (attrKey ∈ attrNames s) && evalKeep peval attrKey e keep s) =
          xs.filter
            (fun s => decide (attrKey ∈ attrNames s) && evalKeep peval attrKey e keep s) by
        simp [List.filter_cons, hmem]]
      rw [show fbaGo peval attrKey (.str e) keep (s :: xs) acc =
          fbaGo peval attrKey (.str e) keep xs acc by
        simp [fbaGo, hs, hmem]]
      exact ih acc h1' h2'

/-! ## Claims C3, C4, C5, C10 -/

/-- A concrete song carrying the acquisition-date attribute. -/
def c3song : Song := ⟨"g/songs/one.mp3", [("AcquisitionTimeYearMonthDay", "8/25/2012")]⟩

/-- Claim C3: the claim says `filter_by_attribute` with a boolean predicate
function returns exactly the attribute-bearing songs with
`test(value) == keep`, and that `filter_recent` applies the recency predicate
to every song carrying the acquisition date.  The code cannot do this: the
comparison `type(test) == function` raises `NameError` (`function` is an
undefined name in Python), and the `except NameError` handler then calls
`test.replace(...)` on the function object, raising `AttributeError`.  Both
`filter_by_attribute` with a function test and `filter_recent` therefore
raise as soon as one song carries the attribute, contradicting the code's
own docstring ("Functions can be passed in..."). -/
theorem C3_function_test_raises :
    filter_by_attribute (fun _ => .ok (.bool true)) [c3song]
      "AcquisitionTimeYearMonthDay" (.fn (fun _ => true)) true =
        .error .attributeError ∧
    filter_recent (fun _ => .ok (.bool true)) (fun _ => true) [c3song] true =
      .error .attributeError :=
  ⟨rfl, rfl⟩

/-- Evaluation oracle for the C4 counterexample: the digit expression
evaluates to the integer 1, anything else raises `NameError`. -/
def c4peval : String → Except PyErr PyVal :=
  fun x => if x = "1" then .ok (.int 1) else .error .nameError

/-- C4 counterexample songs: the second song's attribute value makes the
substituted expression raise `NameError`. -/
def c4s1 : Song := ⟨"u1", [("UserRating", "1")]⟩

def c4s2 : Song := ⟨"u2", [("UserRating", "bad")]⟩

def c4s3 : Song := ⟨"u3", [("UserRating", "1")]⟩

/-- Claim C4 counterexample: an undefined-name error during expression
evaluation is *not* fatal to the call.  On this input the evaluation raises
`NameError` at the second song, yet `filter_by_attribute` returns a normal
(`.ok`) partial result list holding only the first song — the third song
carries the attribute and satisfies the test, but is silently dropped; no
error reaches the caller. -/
theorem C4_counterexample :
    filter_by_attribute c4peval [c4s1, c4s2, c4s3] "UserRating"
      (.str "attribute") true = .ok [c4s1] ∧
    "UserRating" ∈ attrNames c4s3 ∧
    c4peval (substExpr "attribute" (getItemInfo c4s3 "UserRating")) = .ok (.int 1) ∧
    pyEqBool (.int 1) true = true :=
  ⟨rfl, by decide, rfl, rfl⟩

/-- Claim C4 (amended): when evaluating the substituted expression raises an
undefined-name error on some song (every earlier song having attributes and
evaluating without a raise), the loop aborts at that song and the call
returns, as a normal result, exactly the songs kept from the earlier part of
the list; the failure is only printed, no exception reaches the caller. -/
theorem C4_nameError_partial (peval : String → Except PyErr PyVal)
    (attrKey e : String) (keep : Bool) (xs ys : List Song) (bad : Song)
    (h1 : ∀ s ∈ xs, s.attrs ≠ [])
    (h2 : ∀ s ∈ xs, attrKey ∈ attrNames s →
      ∃ v, peval (substExpr e (getItemInfo s attrKey)) = .ok v)
    (hb1 : bad.attrs ≠ []) (hb2 : attrKey ∈ attrNames bad)
    (hb3 : peval (substExpr e (getItemInfo bad attrKey)) = .error .nameError) :
    ∃ l, filter_by_attribute peval (xs ++ bad :: ys) attrKey (.str e) keep = .ok l ∧
      filter_by_attribute peval xs attrKey (.str e) keep = .ok l := by
  obtain ⟨acc', _, heq1, heq2⟩ := fbaGo_append peval attrKey e keep xs (bad :: ys) [] h1 h2
  refine ⟨acc'.reverse, ?_, heq2⟩
  unfold filter_by_attribute
  rw [heq1]
  simp [fbaGo, hb1, hb2, hb3]

/-- Witness for C4_nameError_partial at a concrete input. -/
theorem C4_nameError_partial_witness :
    ∃ l, filter_by_attribute c4peval ([c4s1] ++ c4s2 :: [c4s3]) "UserRating"
        (.str "attribute") true = .ok l ∧
      filter_by_attribute c4peval [c4s1] "UserRating" (.str "attribute") true = .ok l :=
  C4_nameError_partial c4peval "UserRating" "attribute" true [c4s1] [c4s3] c4s2
    (by decide) (fun s hs _ => by
      rcases List.mem_singleton.mp hs with rfl
      exact ⟨.int 1, rfl⟩)
    (by decide) (by decide) rfl

/-- The same song cannot satisfy the kept condition for both `keep=True` and
`keep=False`. -/
theorem evalKeep_not_both (peval : String → Except PyErr PyVal)
    (attrKey e : String) (a : Song)
    (ht : evalKeep peval attrKey e true a = true)
    (hf : evalKeep peval attrKey e false a = true) : False := by
  unfold evalKeep at ht hf
  cases hev : peval (substExpr e (getItemInfo a attrKey)) with
  | ok v =>
    rw [hev] at ht hf
    rcases v with b | n | s'
    · simp at ht hf
      rw [ht] at hf
      exact absurd hf (by simp)
    · simp at ht
    · simp at ht
  | error err =>
    rw [hev] at ht
    simp at ht

/-- Evaluation oracle for the C5 counterexample: every expression evaluates
to a genuine boolean. -/
def c5peval : String → Except PyErr PyVal :=
  fun x => if x = "1" then .ok (.bool true) else .ok (.bool false)

/-- A song reporting zero attributes. -/
def c5z : Song := ⟨"uz", []⟩

/-- An attribute-bearing song whose value satisfies the predicate. -/
def c5s : Song := ⟨"us", [("UserRating", "1")]⟩

/-- Claim C5 counterexample: with a zero-attribute song ahead of it, an
attribute-bearing song lands in *neither* the `keep=True` nor the
`keep=False` output (both loops `break` at the zero-attribute song), so the
two outputs do not partition the attribute-bearing subset. -/
theorem C5_counterexample :
    filter_by_attribute c5peval [c5z, c5s] "UserRating" (.str "attribute") true = .ok [] ∧
    filter_by_attribute c5peval [c5z, c5s] "UserRating" (.str "attribute") false = .ok [] ∧
    "UserRating" ∈ attrNames c5s :=
  ⟨rfl, rfl, by decide⟩

/-- Claim C5 (amended): over a song list in which every song reports at least
one attribute, whose `sourceURL`s are distinct (the spec's well-formed
library invariant), and for which the evaluated expression returns a boolean
on every attribute-bearing song, the `keep=True` and `keep=False` outputs of
`filter_by_attribute` partition the attribute-bearing songs: their
`sourceURL` sets are disjoint, their union is exactly the `sourceURL` set of
the attribute-bearing songs, and a song lacking the attribute appears in
neither. -/
theorem C5_partition (peval : String → Except PyErr PyVal)
    (attrKey e : String) (songs : List Song)
    (h1 : ∀ s ∈ songs, s.attrs ≠ [])
    (h2 : ∀ s ∈ songs, attrKey ∈ attrNames s →
      ∃ b, peval (substExpr e (getItemInfo s attrKey)) = .ok (.bool b))
    (hnd : (songs.map Song.sourceURL).Nodup) :
    ∃ l₁ l₂,
      filter_by_attribute peval songs attrKey (.str e) true = .ok l₁ ∧
      filter_by_attribute peval songs attrKey (.str e) false = .ok l₂ ∧
      (∀ u, ¬ (u ∈ l₁.map Song.sourceURL ∧ u ∈ l₂.map Song.sourceURL)) ∧
      (∀ u, (u ∈ l₁.map Song.sourceURL ∨ u ∈ l₂.map Song.sourceURL) ↔
        u ∈ (songs.filter (fun s => decide (attrKey ∈ attrNames s))).map Song.sourceURL) ∧
      (∀ s ∈ songs, attrKey ∉ attrNames s →
        s.sourceURL ∉ l₁.map Song.sourceURL ∧ s.sourceURL ∉ l₂.map Song.sourceURL) := by
  have hinj : ∀ ⦃a⦄, a ∈ songs → ∀ ⦃b⦄, b ∈ songs → a.sourceURL = b.sourceURL → a = b :=
    List.inj_on_of_nodup_map hnd
  refine ⟨_, _, fbaGo_filter peval attrKey e true songs [] h1 h2,
    fbaGo_filter peval attrKey e false songs [] h1 h2, ?_, ?_, ?_⟩
  · rintro u ⟨hu1, hu2⟩
    simp only [List.nil_append, List.reverse_nil, List.mem_map, List.mem_filter] at hu1 hu2
    obtain ⟨a, ⟨ha, hpa⟩, hua⟩ := hu1
    obtain ⟨b, ⟨hb, hpb⟩, hub⟩ := hu2
    have hab : a = b := hinj ha hb (hua.trans hub.symm)
    subst hab
    exact evalKeep_not_both peval attrKey e a
      (Bool.and_eq_true_iff.mp hpa).2 (Bool.and_eq_true_iff.mp hpb).2
  · intro u
    simp only [List.nil_append, List.reverse_nil, List.mem_map, List.mem_filter]
    constructor
    · rintro (⟨a, ⟨ha, hpa⟩, hua⟩ | ⟨a, ⟨ha, hpa⟩, hua⟩) <;>
        exact ⟨a, ⟨ha, (Bool.and_eq_true_iff.mp hpa).1⟩, hua⟩
    · rintro ⟨a, ⟨ha, hpa⟩, hua⟩
      obtain ⟨b, hb⟩ := h2 a ha (by simpa using hpa)
      have hek : ∀ k : Bool, evalKeep peval attrKey e k a = (b == k) := by
        intro k; simp [evalKeep, hb]
      cases b
      · exact Or.inr ⟨a, ⟨ha, by simp [hpa, hek]⟩, hua⟩
      · exact Or.inl ⟨a, ⟨ha, by simp [hpa, hek]⟩, hua⟩
  · intro s hs hnot
    constructor <;>
    · intro hmem
      simp only [List.nil_append, List.reverse_nil, List.mem_map, List.mem_filter] at hmem
      obtain ⟨a, ⟨ha, hpa⟩, hua⟩ := hmem
      have : a = s := hinj ha hs hua
      subst this
      exact hnot (by simpa using (Bool.and_eq_true_iff.mp hpa).1)

/-- Witness for C5_partition at a concrete input. -/
theorem C5_partition_witness :
    ∃ l₁ l₂,
      filter_by_attribute c5peval [c5s] "UserRating" (.str "attribute") true = .ok l₁ ∧
      filter_by_attribute c5peval [c5s] "UserRating" (.str "attribute") false = .ok l₂ ∧
      (∀ u, ¬ (u ∈ l₁.map Song.sourceURL ∧ u ∈ l₂.map Song.sourceURL)) ∧
      (∀ u, (u ∈ l₁.map Song.sourceURL ∨ u ∈ l₂.map Song.sourceURL) ↔
        u ∈ (([c5s]).filter (fun s => decide ("UserRating" ∈ attrNames s))).map Song.sourceURL) ∧
      (∀ s ∈ [c5s], "UserRating" ∉ attrNames s →
        s.sourceURL ∉ l₁.map Song.sourceURL ∧ s.sourceURL ∉ l₂.map Song.sourceURL) :=
  C5_partition c5peval "UserRating" "attribute" [c5s]
    (by decide)
    (fun s hs _ => by
      rcases List.mem_singleton.mp hs with rfl
      exact ⟨true, rfl⟩)
    (by decide)

/-- Claim C10: a song reporting zero attributes ends the filtering loop via
`break`: the call returns normally (no error) with exactly the songs kept
before that song, and every later song is excluded regardless of its
attributes (here `ys` is arbitrary).  The earlier songs are assumed to have
attributes and evaluate without a raise, so the zero-attribute song is the
first stopping point. -/
theorem C10_zero_attributes_break (peval : String → Except PyErr PyVal)
    (attrKey e : String) (keep : Bool) (xs ys : List Song) (z : Song)
    (hz : z.attrs = [])
    (h1 : ∀ s ∈ xs, s.attrs ≠ [])
    (h2 : ∀ s ∈ xs, attrKey ∈ attrNames s →
      ∃ v, peval (substExpr e (getItemInfo s attrKey)) = .ok v) :
    ∃ l, filter_by_attribute peval (xs ++ z :: ys) attrKey (.str e) keep = .ok l ∧
      filter_by_attribute peval xs attrKey (.str e) keep = .ok l ∧
      ∀ t ∈ l, t ∈ xs := by
  obtain ⟨acc', hsub, heq1, heq2⟩ := fbaGo_append peval attrKey e keep xs (z :: ys) [] h1 h2
  refine ⟨acc'.reverse, ?_, heq2, ?_⟩
  · unfold filter_by_attribute
    rw [heq1]
    simp [fbaGo, hz]
  · intro t ht
    rcases hsub t (List.mem_reverse.mp ht) with h | h
    · exact h
    · simp at h

/-- Witness for C10_zero_attributes_break at a concrete input. -/
theorem C10_zero_attributes_break_witness :
    ∃ l, filter_by_attribute c5peval ([c5s] ++ c5z :: [c5s]) "UserRating"
        (.str "attribute") true = .ok l ∧
      filter_by_attribute c5peval [c5s] "UserRating" (.str "attribute") true = .ok l ∧
      ∀ t ∈ l, t ∈ [c5s] :=
  C10_zero_attributes_break c5peval "UserRating" "attribute" true [c5s] [c5s] c5z
    rfl (by decide)
    (fun s hs _ => by
      rcases List.mem_singleton.mp hs with rfl
      exact ⟨.bool true, rfl⟩)

/-! ## Claim C8: `filter_unique(None)` -/

theorem fuGo_no_target (names : List String) (reverse : Bool) (xs : List Song) :
    ∀ (pathset : List String) (acc : List Song),
    fuGo names false reverse xs pathset acc = acc.reverse ++ dedupSongs pathset xs := by
  induction xs with
  | nil => intro ps acc; simp [fuGo, dedupSongs]
  | cons s t ih =>
    intro ps acc
    by_cases hs : s.sourceURL ∈ ps
    · simp [fuGo, dedupSongs, hs, ih]
    · simp [fuGo, dedupSongs, hs, ih]

theorem dedupSongs_enumFrom (l : List Song) : ∀ (k : Nat) (seen : List String),
    dedupSongs seen l = ((l.enumFrom k).filter
      (fun p => decide (p.snd.sourceURL ∉ seen ∧
        p.snd.sourceURL ∉ (l.take (p.fst - k)).map Song.sourceURL))).map Prod.snd := by
  induction l with
  | nil => intro k seen; simp [dedupSongs]
  | cons s t ih =>
    intro k seen
    have hhead : ((s :: t).take (k - k)).map Song.sourceURL = [] := by
      simp [Nat.sub_self]
    by_cases hs : s.sourceURL ∈ seen
    · have htail : ((t.enumFrom (k + 1)).filter
          (fun p => decide (p.snd.sourceURL ∉ seen ∧
            p.snd.sourceURL ∉ ((s :: t).take (p.fst - k)).map Song.sourceURL))) =
          ((t.enumFrom (k + 1)).filter
          (fun p => decide (p.snd.sourceURL ∉ seen ∧
            p.snd.sourceURL ∉ (t.take (p.fst - (k + 1))).map Song.sourceURL))) := by
        apply List.filter_congr
        rintro ⟨i, x⟩ hp
        have hik : k + 1 ≤ i := (List.mem_enumFrom hp).1
        have htake : (s :: t).take (i - k) = s :: t.take (i - (k + 1)) := by
          have : i - k = (i - (k + 1)) + 1 := by omega
          rw [this]
          rfl
        simp only []
        rw [htake]
        apply decide_eq_decide.mpr
        constructor
        · rintro ⟨hseen, hmem⟩
          exact ⟨hseen, fun hc => hmem (by simp; exact Or.inr (by simpa using hc))⟩
        · rintro ⟨hseen, hmem⟩
          refine ⟨hseen, fun hc => ?_⟩
          rcases (List.mem_cons).mp hc with hc | hc
          · exact hseen (hc ▸ hs)
          · exact hmem hc
      calc dedupSongs seen (s :: t) = dedupSongs seen t := by simp [dedupSongs, hs]
        _ = _ := by
          rw [ih (k + 1) seen, List.enumFrom_cons, List.filter_cons]
          simp only [hhead]
          rw [htail]
          simp [hs]
    · have htail : ((t.enumFrom (k + 1)).filter
          (fun p => decide (p.snd.sourceURL ∉ seen ∧
            p.snd.sourceURL ∉ ((s :: t).take (p.fst - k)).map Song.sourceURL))) =
          ((t.enumFrom (k + 1)).filter
          (fun p => decide (p.snd.sourceURL ∉ s.sourceURL :: seen ∧
            p.snd.sourceURL ∉ (t.take (p.fst - (k + 1))).map Song.sourceURL))) := by
        apply List.filter_congr
        rintro ⟨i, x⟩ hp
        have hik : k + 1 ≤ i := (List.mem_enumFrom hp).1
        have htake : (s :: t).take (i - k) = s :: t.take (i - (k + 1)) := by
          have : i - k = (i - (k + 1)) + 1 := by omega
          rw [this]
          rfl
        simp only []
        rw [htake]
        apply decide_eq_decide.mpr
        constructor
        · rintro ⟨hseen, hmem⟩
          refine ⟨fun hc => ?_, fun hc => hmem (by simp; exact Or.inr (by simpa using hc))⟩
          rcases (List.mem_cons).mp hc with hc | hc
          · exact hmem (by simp [hc])
          · exact hseen hc
        · rintro ⟨hseen, hmem⟩
          refine ⟨fun hc => hseen (by simp [hc]), fun hc => ?_⟩
          rcases (List.mem_cons).mp hc with hc | hc
          · exact hseen (by simp [hc])
          · exact hmem hc
      calc dedupSongs seen (s :: t) = s :: dedupSongs (s.sourceURL :: seen) t := by
            simp [dedupSongs, hs]
        _ = _ := by
          rw [ih (k + 1) (s.sourceURL :: seen), List.enumFrom_cons, List.filter_cons]
          simp only [hhead]
          rw [htail]
          simp [hs]

/-- Claim C8: `filter_unique` with no target directory (for any filesystem
and either `reverse` flag, both of which the no-target branch ignores)
returns exactly the songs whose `sourceURL` differs from every earlier
song's: first occurrences win, relative order is preserved, and nothing else
is removed.  The model is pure, so the input list is unchanged. -/
theorem C8_filter_unique_none (fs : List String) (songs : List Song) (reverse : Bool) :
    filter_unique fs songs "" reverse = firstOccurrences songs := by
  unfold filter_unique
  rw [show (fuGo (if ("" : String) ≠ "" then walkNames fs "" else [])
      (decide (("" : String) ≠ "") && !(if ("" : String) ≠ "" then walkNames fs "" else []).isEmpty)
      reverse songs [] []) =
    fuGo [] false reverse songs [] [] from rfl]
  rw [fuGo_no_target]
  rw [List.reverse_nil, List.nil_append]
  rw [dedupSongs_enumFrom songs 0 []]
  unfold firstOccurrences
  apply congrArg
  apply List.filter_congr
  rintro ⟨i, x⟩ hp
  simp

/-! ## Claim C9: `get_attributes` -/

theorem bumpVal_fst (m : List (String × Nat)) (v : String) :
    (bumpVal m v).map Prod.fst =
      if v ∈ m.map Prod.fst then m.map Prod.fst else m.map Prod.fst ++ [v] := by
  induction m with
  | nil => simp [bumpVal]
  | cons wc rest ih =>
    obtain ⟨w, c⟩ := wc
    by_cases hw : w = v
    · simp [bumpVal, hw]
    · have hne : v ≠ w := fun h => hw h.symm
      by_cases hv : v ∈ rest.map Prod.fst
      · simp [bumpVal, hw, hv, ih, hne]
      · simp [bumpVal, hw, hv, ih, hne]

theorem bumpVal_nodup (m : List (String × Nat)) (v : String)
    (h : (m.map Prod.fst).Nodup) : ((bumpVal m v).map Prod.fst).Nodup := by
  rw [bumpVal_fst]
  by_cases hv : v ∈ m.map Prod.fst
  · simpa [hv] using h
  · simp only [hv, if_false]
    simp [List.nodup_append, h, hv]

theorem bumpAttr_nodup (h : List (String × List (String × Nat))) (k v : String)
    (hh : ∀ kv ∈ h, (kv.snd.map Prod.fst).Nodup) :
    ∀ kv ∈ bumpAttr h k v, (kv.snd.map Prod.fst).Nodup := by
  induction h with
  | nil =>
    intro kv hkv
    simp [bumpAttr] at hkv
    simp [hkv]
  | cons km rest ih =>
    obtain ⟨k0, m⟩ := km
    intro kv hkv
    by_cases hk : k0 = k
    · simp only [bumpAttr, hk, if_pos rfl] at hkv
      rcases List.mem_cons.mp hkv with hkv | hkv
      · subst hkv
        exact bumpVal_nodup m v (hh (k0, m) (by simp [hk]))
      · exact hh kv (by simp [hkv])
    · simp only [bumpAttr, if_neg hk] at hkv
      rcases List.mem_cons.mp hkv with hkv | hkv
      · subst hkv
        exact hh (k0, m) (by simp)
      · exact ih (fun kv2 hkv2 => hh kv2 (by simp [hkv2])) kv hkv

theorem buildHist_inner_fold (ks : List String) (s : Song) :
    ∀ (h : List (String × List (String × Nat))),
    (∀ kv ∈ h, (kv.snd.map Prod.fst).Nodup) →
    ∀ kv ∈ ks.foldl (fun h k => bumpAttr h k (getItemInfo s k)) h,
      (kv.snd.map Prod.fst).Nodup := by
  induction ks with
  | nil => intro h hh kv hkv; exact hh kv hkv
  | cons k ks ih =>
    intro h hh kv hkv
    exact ih (bumpAttr h k (getItemInfo s k)) (bumpAttr_nodup h k _ hh) kv hkv

theorem buildHist_nodup (songs : List Song) :
    ∀ kv ∈ buildHist songs, (kv.snd.map Prod.fst).Nodup := by
  unfold buildHist
  suffices hgen : ∀ (h : List (String × List (String × Nat))),
      (∀ kv ∈ h, (kv.snd.map Prod.fst).Nodup) →
      ∀ kv ∈ songs.foldl
        (fun h s => (attrNames s).foldl (fun h k => bumpAttr h k (getItemInfo s k)) h) h,
        (kv.snd.map Prod.fst).Nodup by
    exact hgen [] (by simp)
  induction songs with
  | nil => intro h hh kv hkv; exact hh kv hkv
  | cons s t ih =>
    intro h hh kv hkv
    exact ih _ (buildHist_inner_fold (attrNames s) s h hh) kv hkv

/-- Claim C9: every attribute retained by `get_attributes(min_songs)` maps to
at least two *distinct* retained values (the value keys are distinct by the
histogram's dict structure), and every retained value occurs at least
`min_songs` times; attributes failing either condition never appear. -/
theorem C9_get_attributes_trimmed (songs : List Song) (min_songs : Nat)
    (kv : String × List (String × Nat)) (hkv : kv ∈ get_attributes songs min_songs) :
    2 ≤ kv.snd.length ∧ (kv.snd.map Prod.fst).Nodup ∧
      ∀ vc ∈ kv.snd, min_songs ≤ vc.snd := by
  unfold get_attributes at hkv
  rw [List.mem_filterMap] at hkv
  obtain ⟨kv0, hkv0, hf⟩ := hkv
  by_cases h1 : kv0.snd.length = 1
  · simp [h1] at hf
  · simp only [h1, if_false] at hf
    by_cases h2 : (kv0.snd.filter (fun vc => !(vc.snd < min_songs))).length < 2
    · simp [h2] at hf
    · simp only [h2, if_false, Option.some.injEq] at hf
      subst hf
      refine ⟨show 2 ≤ (kv0.snd.filter (fun vc => !(vc.snd < min_songs))).length by omega, ?_, ?_⟩
      · exact List.Nodup.sublist
          (List.Sublist.map Prod.fst (List.filter_sublist kv0.snd))
          (buildHist_nodup songs kv0 hkv0)
      · intro vc hvc
        have := (List.mem_filter.mp hvc).2
        simp at this
        omega

/-- Concrete songs whose histogram survives trimming. -/
def c9songs : List Song :=
  [⟨"p1", [("A", "x")]⟩, ⟨"p2", [("A", "x")]⟩, ⟨"p3", [("A", "y")]⟩, ⟨"p4", [("A", "y")]⟩]

/-- Witness for C9_get_attributes_trimmed at a concrete input. -/
theorem C9_get_attributes_trimmed_witness :
    2 ≤ [("x", 2), ("y", 2)].length ∧
      (([("x", 2), ("y", 2)] : List (String × Nat)).map Prod.fst).Nodup ∧
      ∀ vc ∈ [("x", 2), ("y", 2)], 2 ≤ vc.snd :=
  C9_get_attributes_trimmed c9songs 2 ("A", [("x", 2), ("y", 2)]) (by decide)

/-! ## Claim C1: `remove_songs` after `export_songs` -/

/-- A song with full metadata, living under the source root. -/
def c1song : Song :=
  ⟨"src/album/track.mp3", [("Duration", "100"), ("Author", "A"), ("Title", "T")]⟩

/-- Claim C1: the claim says `remove_songs` after `export_songs` (same list,
source and destination) deletes exactly the copied files plus the playlist
file and nothing else, skipping missing targets without error.  The code
instead reuses export's directory-computation snippet ("strip file name from
path") and calls `os.remove` on the *parent directory* of each copied file:
exporting one song to an empty `dst` copies `dst/album/track.mp3` and writes
`dst/L.m3u`, but the subsequent `remove_songs` deletes the playlist and then
raises `OSError` trying to `os.remove("dst/album")`, a directory — the copied
file is never deleted.  The code's own comment (`# check if file exists`)
and the spec agree on the intent, so this is a slip in the code. -/
theorem C1_remove_after_export_raises :
    export_songs [c1song] "L" "" "dst" "src" "cwd" ["src/album/track.mp3"] =
      .ok ["src/album/track.mp3", "dst/L.m3u", "dst/album/track.mp3"] ∧
    remove_songs [c1song] "L" "" "dst" "src"
      ["src/album/track.mp3", "dst/L.m3u", "dst/album/track.mp3"] =
      .error .osError :=
  ⟨rfl, rfl⟩

/-! ## Claim C2: `common_path` -/

/-- Claim C2 counterexample: the set `{A/f, AB/g}` has *no* first-depth
segment shared by a strict majority (the first segments `A` and `AB` occur
once each among two paths), yet `common_path` returns `"A"`, not the empty
string: the candidate count uses Python `startswith`, and `AB/g` string-starts
with `A`.  Both iteration orders of the two-element set give the same
result. -/
theorem C2_counterexample :
    (∀ g ∈ ["A/f", "AB/g"], ¬ firstSegMajority ["A/f", "AB/g"] g) ∧
    common_path ["A/f", "AB/g"] = .ok "A" ∧
    common_path ["AB/g", "A/f"] = .ok "A" ∧
    ("A" : String) ≠ "" ∧ (["A/f", "AB/g"] : List String).Nodup :=
  ⟨by decide, rfl, rfl, by decide, by decide⟩

/-! ## Claim C6: the M3U entry formatter -/

/-- A song with empty Title/Author/Duration whose file name contains two
dots. -/
def c6song : Song := ⟨"d/my.song.mp3", [("UserRating", "1")]⟩

/-- Claim C6 counterexample: for a file named `my.song.mp3` with no title
attribute, the claim (title = file name with its extension stripped,
title-cased) prescribes `My.Song`, but the source truncates at the *first*
dot (`tmp.split('.')[0]`) and produces `My`. -/
theorem C6_counterexample :
    playlistEntry_M3U c6song "" = .ok "#EXTINF:120,D - My\nd/my.song.mp3\n" ∧
    specEntryLiteral c6song "" = "#EXTINF:120,D - My.Song\nd/my.song.mp3\n" ∧
    ("#EXTINF:120,D - My\nd/my.song.mp3\n" : String) ≠
      "#EXTINF:120,D - My.Song\nd/my.song.mp3\n" :=
  ⟨rfl, rfl, by decide⟩

/-! ## Claim C7: `export_playlist` -/

/-- A song whose entry serialization raises: no Author attribute and a
`sourceURL` without any path separator, so the artist fallback's
`split(os.path.sep)[-2]` raises `IndexError`. -/
def c7song : Song := ⟨"plain.mp3", [("UserRating", "1")]⟩

/-- Claim C7 counterexample: `export_playlist` is *not* total.  The entry
string is built outside the per-entry `try`, so a song whose serialization
raises (`IndexError` here) aborts the whole call: no playlist is produced
and no error count is returned, refuting "always produces the playlist
file ... never raises for a single bad entry". -/
theorem C7_counterexample :
    export_playlist (fun _ => true) [c7song] "" "" = .error .indexError :=
  rfl

/-- Concatenation of a list of strings (for stating playlist contents). -/
def concatStrs : List String → String
  | [] => ""
  | s :: t => s ++ concatStrs t

/-- The entry string of a song after the source→destination rebase applied
by `export_playlist` when both directories are given. -/
def entryRebase (source_dir dest_dir : String) (s : Song) : String :=
  if source_dir ≠ "" && dest_dir ≠ "" then strReplace (entryOf s) source_dir dest_dir
  else entryOf s

theorem eplGo_cons (writeOk : String → Bool) (sd dd : String) (s : Song) (t : List Song)
    (content : String) (log : List String) (cnt : Nat)
    (hs : playlistEntry_M3U s "" = .ok (entryOf s)) :
    eplGo writeOk sd dd (s :: t) content log cnt =
      if writeOk (entryRebase sd dd s) = true then
        eplGo writeOk sd dd t (content ++ entryRebase sd dd s) log cnt
      else eplGo writeOk sd dd t content (log ++ [entryRebase sd dd s]) (cnt + 1) := by
  simp only [eplGo, hs]
  rw [show (if (decide (sd ≠ "") && decide (dd ≠ "")) = true
      then strReplace (entryOf s) sd dd else entryOf s) = entryRebase sd dd s from rfl]

theorem eplGo_ok (writeOk : String → Bool) (source_dir dest_dir : String)
    (xs : List Song)
    (h : ∀ s ∈ xs, playlistEntry_M3U s "" = .ok (entryOf s)) :
    ∀ (content : String) (log : List String) (cnt : Nat),
    eplGo writeOk source_dir dest_dir xs content log cnt =
      .ok (content ++ concatStrs ((xs.map (entryRebase source_dir dest_dir)).filter writeOk),
        log ++ (xs.map (entryRebase source_dir dest_dir)).filter (fun x => !writeOk x),
        cnt + ((xs.map (entryRebase source_dir dest_dir)).filter (fun x => !writeOk x)).length) := by
  induction xs with
  | nil =>
    intro content log cnt
    simp [eplGo, concatStrs]
  | cons s t ih =>
    intro content log cnt
    have hs : playlistEntry_M3U s "" = .ok (entryOf s) := h s (by simp)
    have ht : ∀ u ∈ t, playlistEntry_M3U u "" = .ok (entryOf u) :=
      fun u hu => h u (by simp [hu])
    rw [eplGo_cons writeOk source_dir dest_dir s t content log cnt hs]
    by_cases hw : writeOk (entryRebase source_dir dest_dir s) = true
    · rw [if_pos hw, ih ht]
      simp [List.filter_cons, hw, concatStrs, String.append_assoc]
    · rw [if_neg hw, ih ht]
      simp [List.filter_cons, hw, concatStrs]
      omega

/-- Claim C7 (amended): *provided every song's entry serializes* (the entry
construction sits outside the per-entry `try`, so a raise there aborts the
call — see the counterexample), `export_playlist` never raises: it produces
the playlist content — the header plus exactly the entries whose write
succeeded, in input order — returns the count of entries whose write failed,
and the error log of the run (truncated at the start of the call by
construction) holds exactly the failed entries. -/
theorem C7_export_playlist_ok (writeOk : String → Bool)
    (songs : List Song) (source_dir dest_dir : String)
    (h : ∀ s ∈ songs, playlistEntry_M3U s "" = .ok (entryOf s)) :
    export_playlist writeOk songs source_dir dest_dir =
      .ok (m3uHeader ++
          concatStrs ((songs.map (entryRebase source_dir dest_dir)).filter writeOk),
        (songs.map (entryRebase source_dir dest_dir)).filter (fun x => !writeOk x),
        ((songs.map (entryRebase source_dir dest_dir)).filter (fun x => !writeOk x)).length) := by
  unfold export_playlist
  rw [eplGo_ok writeOk source_dir dest_dir songs h m3uHeader [] 0]
  simp

/-- A second song with full metadata and a different duration. -/
def c7good2 : Song :=
  ⟨"src/album/other.mp3", [("Duration", "200"), ("Author", "B"), ("Title", "U")]⟩

/-- Witness for C7_export_playlist_ok: two well-formed songs, the second
entry's write failing; the playlist holds the header plus the first entry,
the log holds the second entry, and the returned count is 1. -/
theorem C7_export_playlist_ok_witness :
    export_playlist (fun x => strStarts x "#EXTINF:1") [c1song, c7good2] "" "" =
      .ok (m3uHeader ++
          concatStrs ((([c1song, c7good2]).map (entryRebase "" "")).filter
            (fun x => strStarts x "#EXTINF:1")),
        (([c1song, c7good2]).map (entryRebase "" "")).filter
          (fun x => !strStarts x "#EXTINF:1"),
        ((([c1song, c7good2]).map (entryRebase "" "")).filter
          (fun x => !strStarts x "#EXTINF:1")).length) :=
  C7_export_playlist_ok (fun x => strStarts x "#EXTINF:1") [c1song, c7good2] "" ""
    (fun s hs => by
      rcases List.mem_cons.mp hs with rfl | hs
      · rfl
      · rcases List.mem_singleton.mp hs with rfl
        rfl)

/-- A string whose length is not positive is empty. -/
theorem strLen_not_pos (x : String) (h : ¬ strLen x > 0) : x = "" := by
  unfold strLen at h
  cases x with
  | mk l =>
    cases l with
    | nil => rfl
    | cons a t => exact absurd (by simp [String.toList]) h

/-- `Except` bind on a success is application. -/
theorem except_bind_ok {α β : Type} (a : α) (f : α → Except PyErr β) :
    (Except.ok a >>= f) = f a := rfl

/-- Claim C6 (amended): for every song whose duration attribute is empty or a
plain decimal numeral, and which has a nonempty author attribute or a
`sourceURL` of at least two path segments (otherwise the source raises), the
generated M3U entry is exactly the spec's §4.4 description, amended in one
place: the title fallback truncates the file name at its *first* dot rather
than stripping the extension. -/
theorem C6_playlist_entry_spec (s : Song) (url : String)
    (hdur : getItemInfo s "Duration" = "" ∨ (parseDecimal (getItemInfo s "Duration")).isSome)
    (hart : getItemInfo s "Author" ≠ "" ∨ 2 ≤ (splitSep s.sourceURL).length) :
    playlistEntry_M3U s url = .ok (specEntryAmended s url) := by
  have hdur' : strLen (getItemInfo s "Duration") > 0 →
      ∃ n, parseDecimal (getItemInfo s "Duration") = some n := by
    intro hD
    rcases hdur with h | h
    · rw [h] at hD
      simp [strLen] at hD
    · exact Option.isSome_iff_exists.mp h
  have hart' : ¬ strLen (getItemInfo s "Author") > 0 →
      ∃ d, penult (splitSep s.sourceURL) = some d := by
    intro hA
    rcases hart with h | h
    · exact absurd (strLen_not_pos _ hA) h
    · have hl : 1 < (splitSep s.sourceURL).reverse.length := by
        rw [List.length_reverse]; omega
      exact ⟨(splitSep s.sourceURL).reverse.get ⟨1, hl⟩, List.get?_eq_get hl⟩
  unfold playlistEntry_M3U specEntryAmended
  by_cases hD : strLen (getItemInfo s "Duration") > 0
  · obtain ⟨n, hn⟩ := hdur' hD
    by_cases hA : strLen (getItemInfo s "Author") > 0
    · simp only [hD, hA, hn, if_true, if_pos]
      simp [except_bind_ok, String.append_assoc]
    · obtain ⟨d, hd⟩ := hart' hA
      simp only [hD, hA, hn, hd, if_true, if_false, if_pos, if_neg, Option.getD_some]
      simp [except_bind_ok, hd, String.append_assoc]
  · by_cases hA : strLen (getItemInfo s "Author") > 0
    · simp only [hD, hA]
      simp [except_bind_ok, String.append_assoc]
      rw [← String.append_assoc]
      congr 1
    · obtain ⟨d, hd⟩ := hart' hA
      simp only [hD, hA, hd]
      simp [except_bind_ok, hd, String.append_assoc]
      rw [← String.append_assoc]
      congr 1

/-- Witness for C6_playlist_entry_spec at a concrete input (full metadata). -/
theorem C6_playlist_entry_spec_witness :
    playlistEntry_M3U c1song "" = .ok (specEntryAmended c1song "") :=
  C6_playlist_entry_spec c1song ""
    (Or.inr (by decide)) (Or.inl (by decide))

/-! ## Claim C2 (amended): `common_path` on a single shared directory -/

theorem strToList_append (a b : String) : (a ++ b).toList = a.toList ++ b.toList :=
  String.data_append a b

theorem splitSepAux_no_sep (xs : List Char) :
    ∀ acc, sepChar ∉ xs → splitSepAux xs acc = [acc.reverse ++ xs] := by
  induction xs with
  | nil => intro acc _; simp [splitSepAux]
  | cons c cs ih =>
    intro acc h
    have hc : c ≠ sepChar := fun hc => h (by simp [hc])
    rw [show splitSepAux (c :: cs) acc = splitSepAux cs (c :: acc) by
      simp [splitSepAux, hc]]
    rw [ih (c :: acc) (fun hm => h (by simp [hm]))]
    simp

theorem splitSepAux_split (xs ys : List Char) :
    ∀ acc, sepChar ∉ xs →
    splitSepAux (xs ++ sepChar :: ys) acc = (acc.reverse ++ xs) :: splitSepAux ys [] := by
  induction xs with
  | nil => intro acc _; simp [splitSepAux]
  | cons c cs ih =>
    intro acc h
    have hc : c ≠ sepChar := fun hc => h (by simp [hc])
    rw [show splitSepAux ((c :: cs) ++ sepChar :: ys) acc =
        splitSepAux (cs ++ sepChar :: ys) (c :: acc) by
      simp [splitSepAux, hc]]
    rw [ih (c :: acc) (fun hm => h (by simp [hm]))]
    simp

/-- Splitting a path of the shape `directory / filename` with separator-free
components. -/
theorem splitSep_dir_file (R nm : String)
    (hR : sepChar ∉ R.toList) (hn : sepChar ∉ nm.toList) :
    splitSep (R ++ sep ++ nm) = [R, nm] := by
  unfold splitSep
  have hdata : (R ++ sep ++ nm).toList = R.toList ++ sepChar :: nm.toList := by
    rw [strToList_append, strToList_append, List.append_assoc]
    rfl
  rw [hdata, splitSepAux_split R.toList nm.toList [] hR,
    splitSepAux_no_sep nm.toList [] hn]
  simp

theorem sepJoin_single (x : String) : sepJoin [x] = x := rfl

/-- Every path `R/nm` string-starts with `R`. -/
theorem strStarts_dir (R nm : String) : strStarts (R ++ sep ++ nm) R = true := by
  unfold strStarts
  rw [List.isPrefixOf_iff_prefix]
  rw [show (R ++ sep ++ nm).toList = R.toList ++ (sep.toList ++ nm.toList) by
    rw [strToList_append, strToList_append, List.append_assoc]]
  exact List.prefix_append R.toList (sep.toList ++ nm.toList)

/-- If one loop step leaves the state unchanged on every file of `l`, so
does the whole fold. -/
theorem foldlM_fixed (files : List String) (st : CPState) :
    ∀ l : List String, (∀ f ∈ l, cpStep files st f = .ok st) →
    l.foldlM (cpStep files) st = .ok st := by
  intro l
  induction l with
  | nil => intro _; rfl
  | cons f t ih =>
    intro h
    rw [List.foldlM_cons, h f (by simp), except_bind_ok]
    exact ih (fun g hg => h g (by simp [hg]))

/-- The first visited file of an all-one-directory collection proposes the
directory itself, which wins the majority vote and is accepted. -/
theorem cpStep_dir_start (files : List String) (R nm : String)
    (hR : sepChar ∉ R.toList) (hnm : sepChar ∉ nm.toList)
    (hfiles : ∀ f2 ∈ files, strStarts f2 R = true) (hpos : files ≠ []) :
    cpStep files ⟨[], []⟩ (R ++ sep ++ nm) = .ok ⟨[R], [R]⟩ := by
  unfold cpStep
  rw [splitSep_dir_file R nm hR hnm]
  rw [show ([R, nm].dropLast : List String) = [R] from rfl]
  rw [if_neg (by simp)]
  rw [List.take_of_length_le (by simp), sepJoin_single]
  rw [if_neg (by simp)]
  rw [List.filter_eq_self.mpr hfiles]
  rw [if_pos (by
    have : 0 < files.length := List.length_pos.mpr hpos
    omega)]
  rfl

/-- Every later visit proposes the same candidate again and is skipped by the
memo. -/
theorem cpStep_dir_fixed (files : List String) (R nm : String)
    (hR : sepChar ∉ R.toList) (hnm : sepChar ∉ nm.toList) :
    cpStep files ⟨[R], [R]⟩ (R ++ sep ++ nm) = .ok ⟨[R], [R]⟩ := by
  unfold cpStep
  rw [splitSep_dir_file R nm hR hnm]
  rw [show ([R, nm].dropLast : List String) = [R] from rfl]
  rw [if_neg (by simp)]
  rw [List.take_of_length_le (by simp), sepJoin_single]
  rw [if_pos (by simp)]

/-- Claim C2 (amended): if every member of the (duplicate-free) set is a file
directly inside one common directory `R` (each path is `R`, a separator,
then a separator-free file name) and the set is nonempty, then `common_path`
returns exactly `R`, for every iteration order of the set.  The original
claim's clauses fail on the code (see the counterexample): candidates are
counted with Python `startswith`, a *string* prefix test, so a set with no
majority-shared first segment can still produce a nonempty result. -/
theorem C2_common_path_single_dir (R : String) (names : List String)
    (hR : sepChar ∉ R.toList)
    (hnames : ∀ nm ∈ names, sepChar ∉ nm.toList)
    (hnd : names.Nodup) (hne : names ≠ []) :
    common_path (names.map (fun nm => R ++ sep ++ nm)) = .ok R := by
  have hall : ∀ f2 ∈ names.map (fun nm => R ++ sep ++ nm), strStarts f2 R = true := by
    intro f2 hf2
    obtain ⟨nm, _, rfl⟩ := List.mem_map.mp hf2
    exact strStarts_dir R nm
  have hposf : names.map (fun nm => R ++ sep ++ nm) ≠ [] := by
    simpa using hne
  obtain ⟨nm0, names', rfl⟩ : ∃ nm0 names', names = nm0 :: names' := by
    cases names with
    | nil => exact absurd rfl hne
    | cons a t => exact ⟨a, t, rfl⟩
  unfold common_path
  rw [show ((nm0 :: names').map (fun nm => R ++ sep ++ nm)).foldlM
        (cpStep ((nm0 :: names').map (fun nm => R ++ sep ++ nm))) ⟨[], []⟩ =
      ((R ++ sep ++ nm0) :: names'.map (fun nm => R ++ sep ++ nm)).foldlM
        (cpStep ((nm0 :: names').map (fun nm => R ++ sep ++ nm))) ⟨[], []⟩ from rfl]
  rw [List.foldlM_cons]
  rw [cpStep_dir_start ((nm0 :: names').map (fun nm => R ++ sep ++ nm)) R nm0
    hR (hnames nm0 (by simp)) hall hposf]
  rw [except_bind_ok]
  rw [foldlM_fixed ((nm0 :: names').map (fun nm => R ++ sep ++ nm)) ⟨[R], [R]⟩
    (names'.map (fun nm => R ++ sep ++ nm))
    (fun f hf => by
      obtain ⟨nm, hnm, rfl⟩ := List.mem_map.mp hf
      exact cpStep_dir_fixed ((nm0 :: names').map (fun nm => R ++ sep ++ nm)) R nm
        hR (hnames nm (by simp [hnm])))]
  rw [except_bind_ok]
  exact congrArg Except.ok (sepJoin_single R)

/-- Witness for C2_common_path_single_dir at a concrete input. -/
theorem C2_common_path_single_dir_witness :
    common_path (["a.mp3", "b.mp3"].map (fun nm => "root" ++ sep ++ nm)) = .ok "root" :=
  C2_common_path_single_dir "root" ["a.mp3", "b.mp3"]
    (by decide) (by decide) (by decide) (by decide)

end PyWMP
